import Mathlib

/-!
# Verification of the dstatsaggjson / statsaggjs aggregation engine

Shallow embedding of the two Go programs in this repository
(`statsaggjs.go`, the full program, and `dstatsaggjson.go`, its
structural subset).  Go `interface\x7b\x7d` values decoded from JSON, and the
values the merge engine itself produces, are modelled by the inductive
type `Value`; Go maps (`map[string]interface\x7b\x7d` and the top-level store
`map[string]map[string]interface\x7b\x7d`) are modelled as association lists
with unique keys; iteration order of a Go map is unspecified, the list
order stands for one admissible iteration order.

Machine arithmetic: Go `int64` / `uint64` sums wrap; this is modelled
explicitly with `% 2^64`.  Go `float64` is idealized as an exact
rational (`ℚ`): the claims under scrutiny only concern the *kind* of the
stored result and sums of exactly-representable values (small integers),
where IEEE-754 double addition is exact, so the idealization is faithful
on every input these theorems touch.
-/

namespace DStatsAggJson

/-- A Go `interface\x7b\x7d` value as it can appear in the aggregation store:
the results of `json.Unmarshal` into a generic value tree (`nil`, `bool`,
`string`, `float64`, `map[string]interface\x7b\x7d`, `[]interface\x7b\x7d`), plus the
`int64` and `uint64` values the engine itself stores after integer
summation.  `vbadObj` / `vbadArr` model values whose `reflect.Kind` is
`Map` / `Slice` but whose type assertion to `map[string]interface\x7b\x7d` /
`[]interface\x7b\x7d` fails (e.g. a `map[string]int`): they drive the
assertion-failure paths of `aggregate`. -/
inductive Value where
  | vnull
  | vbool (b : Bool)
  | vstr (s : String)
  | vint (n : ℤ)
  | vuint (n : ℕ)
  | vfloat (q : ℚ)
  | vobj (fields : List (String × Value))
  | varr (elems : List Value)
  | vbadObj
  | vbadArr

/-- The `reflect.Kind` of a stored value.  `reflect.ValueOf(nil)` (the
decoding of JSON `null`) has kind `Invalid`. -/
inductive GoKind where
  | invalid
  | bool
  | string
  | int64
  | uint64
  | float64
  | map
  | slice
deriving DecidableEq

/-- `reflect.ValueOf(v).Kind()` for the values of our model. -/
def Value.kind : Value → GoKind
  | .vnull => .invalid
  | .vbool _ => .bool
  | .vstr _ => .string
  | .vint _ => .int64
  | .vuint _ => .uint64
  | .vfloat _ => .float64
  | .vobj _ => .map
  | .varr _ => .slice
  | .vbadObj => .map
  | .vbadArr => .slice

/-- `is_num_type` (statsaggjs.go lines 320-349, dstatsaggjson.go lines
229-258): returns `(is_num, is_int, is_signed)`.  Signed integer kinds
give `(true, true, true)`, unsigned `(true, true, false)`, floats
`(true, false, true)`, everything else `(false, false, false)`.  The
only integer values ever stored are `int64` / `uint64`. -/
def is_num_type : Value → Bool × Bool × Bool
  | .vint _ => (true, true, true)
  | .vuint _ => (true, true, false)
  | .vfloat _ => (true, false, true)
  | _ => (false, false, false)

/-- `ov_v.Int()`: extract the `int64` payload.  Only called on values
whose `is_num_type` flags guarantee the signed-integer shape (Go's
`reflect` would panic otherwise); the default is unreachable there. -/
def Value.intVal : Value → ℤ
  | .vint n => n
  | _ => 0

/-- `ov_v.Uint()`: extract the `uint64` payload. -/
def Value.uintVal : Value → ℕ
  | .vuint n => n
  | _ => 0

/-- `ov_v.Float()`: extract the `float64` payload. -/
def Value.floatVal : Value → ℚ
  | .vfloat q => q
  | _ => 0

/-- Reduce a mathematical integer to the Go `int64` it denotes
(two's-complement wraparound). -/
def wrapInt64 (n : ℤ) : ℤ :=
  (n + 2 ^ 63) % 2 ^ 64 - 2 ^ 63

/-- Reduce a natural number to the Go `uint64` it denotes. -/
def wrapUint64 (n : ℕ) : ℕ :=
  n % 2 ^ 64

/-- Go's conversion `int64(u)` for a `uint64` operand `u`:
reinterpretation of the 64-bit pattern as signed. -/
def int64OfUint64 (u : ℕ) : ℤ :=
  wrapInt64 (u : ℤ)

/-- Go's conversion `float64(n)` for `int64` `n`, idealized as exact
( faithful for `|n| ≤ 2^53`, in particular for every input used by the
theorems below; IEEE-754 rounding of larger magnitudes is not
modelled). -/
def floatOfInt64 (n : ℤ) : ℚ := (n : ℚ)

/-- Go's conversion `float64(n)` for `uint64` `n`, idealized as exact. -/
def floatOfUint64 (n : ℕ) : ℚ := (n : ℚ)

/-- The widening of one numeric operand to `float64` (statsaggjs.go
lines 294-312, dstatsaggjson.go lines 204-222): integers are converted
with `float64(...)` according to their signedness, floats are read
directly with `.Float()`. -/
def widenToFloat (v : Value) : ℚ :=
  if (is_num_type v).2.1 then
    if (is_num_type v).2.2 then floatOfInt64 v.intVal else floatOfUint64 v.uintVal
  else
    v.floatVal

/-- The numeric summation block shared verbatim by the two programs
(statsaggjs.go lines 269-314, dstatsaggjson.go lines 179-224), for two
operands that are both numeric: two integers of equal signedness sum in
that signedness's width; two integers of differing signedness widen the
unsigned one with `int64(...)` and sum as signed; otherwise both
operands widen to `float64` and the sum is stored as a float. -/
def numericSum (ov nv : Value) : Value :=
  if (is_num_type ov).2.1 && (is_num_type nv).2.1 then
    if (is_num_type nv).2.2 == (is_num_type ov).2.2 then
      if (is_num_type nv).2.2 then
        .vint (wrapInt64 (ov.intVal + nv.intVal))
      else
        .vuint (wrapUint64 (ov.uintVal + nv.uintVal))
    else
      if (is_num_type nv).2.2 then
        .vint (wrapInt64 (int64OfUint64 ov.uintVal + nv.intVal))
      else
        .vint (wrapInt64 (ov.intVal + int64OfUint64 nv.uintVal))
  else
    .vfloat (widenToFloat ov + widenToFloat nv)

/-- Lookup in a Go map modelled as an association list
(`v, ok := m[k]`). -/
def alistLookup {β : Type} : List (String × β) → String → Option β
  | [], _ => none
  | (k, v) :: rest, key => if k = key then some v else alistLookup rest key

/-- Update/insert in a Go map modelled as an association list
(`m[k] = v`). -/
def alistSet {β : Type} : List (String × β) → String → β → List (String × β)
  | [], key, v => [(key, v)]
  | (k, w) :: rest, key, v =>
    if k = key then (key, v) :: rest else (k, w) :: alistSet rest key v

abbrev Obj := List (String × Value)

mutual

/-- `aggregate` (statsaggjs.go lines 201-318): merge `this_data` into
`stored_data` field by field, in iteration order.  Returns the mutated
store together with the error `aggregate` returned (`none` on normal
completion).  The per-field loop body is `combineField`; a `none` first
component means the field was dropped (no assignment, Go's `continue`
after the numeric-sticky check), a `some v` means `stored_data[nk] = v`
(also modelling Go's in-place mutation of a shared nested map); a
`some e` second component is the error `aggregate` returns at once:
fields not yet iterated are not merged. -/
def aggregate : Obj → Obj → Obj × Option String
  | stored, [] => (stored, none)
  | stored, (nk, nv) :: rest =>
    match alistLookup stored nk with
    | none => aggregate (alistSet stored nk nv) rest
    | some ov =>
      match combineField ov nv with
      | (none, none) => aggregate stored rest
      | (some v, none) => aggregate (alistSet stored nk v) rest
      | (none, some e) => (stored, some e)
      | (some v, some e) => (alistSet stored nk v, some e)
termination_by _ t => sizeOf t
decreasing_by all_goals (simp_wf; try omega)

/-- The body of `aggregate`'s loop for one colliding field
(statsaggjs.go lines 212-314): `(none, none)` drops the new value
(numeric-sticky), `(some v, none)` stores `v` and continues,
`(_, some e)` aborts the record's merge with error `e` (storing the
partially merged sub-map in the nested-map case). -/
def combineField (ov nv : Value) : Option Value × Option String :=
  if (is_num_type ov).1 && !(is_num_type nv).1 then
    (none, none)
  else if !(is_num_type ov).1 then
    if nv.kind ≠ ov.kind then
      (some nv, none)
    else if nv.kind = .map then
      match ov with
      | .vobj ovm =>
        match nv with
        | .vobj nvm =>
          match aggregate ovm nvm with
          | (m, e) => (some (.vobj m), e)
        | _ => (none, some ("assertion of nv to map[string]interface\x7b\x7d failed"))
      | _ => (none, some ("assertion of ov to map[string]interface\x7b\x7d failed"))
    else if nv.kind = .slice then
      match ov with
      | .varr ovs =>
        match nv with
        | .varr nvs => (some (.varr (ovs ++ nvs)), none)
        | _ => (none, some ("assertion of nv to []interface\x7b\x7d failed"))
      | _ => (none, some ("assertion of ov to []interface\x7b\x7d failed"))
    else
      (some nv, none)
  else
    (some (numericSum ov nv), none)
termination_by sizeOf nv
decreasing_by all_goals (simp_wf; try omega)

end

/-- The inner merge loop of `process_file` in dstatsaggjson.go (lines
147-225), the structural subset: same field-absent insertion, same
numeric-sticky drop, and the same numeric summation block, but for a
non-numeric old value the new value always replaces it (no nested
map/slice handling, no errors). -/
def mergeRecord : Obj → Obj → Obj
  | stored, [] => stored
  | stored, (nk, nv) :: rest =>
    match alistLookup stored nk with
    | none => mergeRecord (alistSet stored nk nv) rest
    | some ov =>
      if (is_num_type ov).1 && !(is_num_type nv).1 then
        mergeRecord stored rest
      else if !(is_num_type ov).1 then
        mergeRecord (alistSet stored nk nv) rest
      else
        mergeRecord (alistSet stored nk (numericSum ov nv)) rest

/-- One input line of statsaggjs.go's `process_file`, after the external
collaborators (`strings.SplitN` on the delimiter, `json.Unmarshal`) have
run — the spec treats line splitting and JSON parsing as external.
`noDelim`: `SplitN` produced fewer than 2 parts (`log.Fatalf`).
`record key none`: the payload failed to parse as a JSON object
(recoverable).  `record key (some obj)`: a well-parsed record. -/
inductive InputLine where
  | noDelim
  | record (key : String) (payload : Option Obj)

/-- The observable state of one run: the aggregation store `ctx.Data`,
the sequence of stores handed to `write_data` so far (each flush emits
one whole store), and whether `log.Fatalf` has terminated the run. -/
structure AggState where
  data : List (String × Obj)
  outputs : List (List (String × Obj))
  fatalErr : Bool

/-- The body of `process_file`'s scan loop (statsaggjs.go lines
167-198) for one line.  A missing delimiter is fatal (the process
exits: no further effect).  An unparsable payload is logged and
skipped.  A new key first checks the flush threshold: with
`ctx.Limit > 0` and `len(data) >= ctx.Limit` the whole store is written
out and replaced by an empty store before the insertion.  An existing
key merges via `aggregate`; an `aggregate` error is only logged. -/
def processLine (limit : ℤ) (st : AggState) (l : InputLine) : AggState :=
  if st.fatalErr then st
  else
    match l with
    | .noDelim => { st with fatalErr := true }
    | .record _ none => st
    | .record key (some thisData) =>
      match alistLookup st.data key with
      | none =>
        if 0 < limit ∧ limit ≤ (st.data.length : ℤ) then
          { st with outputs := st.outputs ++ [st.data], data := [(key, thisData)] }
        else
          { st with data := alistSet st.data key thisData }
      | some stored =>
        { st with data := alistSet st.data key (aggregate stored thisData).1 }

/-- `process_file` (statsaggjs.go lines 162-199): fold the scan loop
over the lines of the input. -/
def process_file (limit : ℤ) (st : AggState) (lines : List InputLine) : AggState :=
  lines.foldl (processLine limit) st

/-- The whole program flow of `main`: process the input, then (unless
`log.Fatalf` aborted the run) hand the final store to `write_data`. -/
def runProgram (limit : ℤ) (lines : List InputLine) : AggState :=
  let st := process_file limit { data := [], outputs := [], fatalErr := false } lines
  if st.fatalErr then st else { st with outputs := st.outputs ++ [st.data] }

mutual

/-- No `int64` / `uint64` value occurs anywhere in this value tree (so
every numeric value in it is a `float64`). -/
def Value.noInt : Value → Bool
  | .vint _ => false
  | .vuint _ => false
  | .vobj m => noIntFields m
  | .varr l => noIntElems l
  | _ => true

/-- `Value.noInt` holds of every field value. -/
def noIntFields : List (String × Value) → Bool
  | [] => true
  | (_, v) :: rest => v.noInt && noIntFields rest

/-- `Value.noInt` holds of every element. -/
def noIntElems : List Value → Bool
  | [] => true
  | v :: rest => v.noInt && noIntElems rest

end

mutual

/-- Comparison definition for the float-only claim: `aggregate` with the
integer-summation branches removed.  The numeric/numeric case reads both
operands directly as floats and stores their float sum; every other
branch is as in `aggregate`. -/
def aggregateFloatOnly : Obj → Obj → Obj × Option String
  | stored, [] => (stored, none)
  | stored, (nk, nv) :: rest =>
    match alistLookup stored nk with
    | none => aggregateFloatOnly (alistSet stored nk nv) rest
    | some ov =>
      match combineFieldFloatOnly ov nv with
      | (none, none) => aggregateFloatOnly stored rest
      | (some v, none) => aggregateFloatOnly (alistSet stored nk v) rest
      | (none, some e) => (stored, some e)
      | (some v, some e) => (alistSet stored nk v, some e)
termination_by _ t => sizeOf t
decreasing_by all_goals (simp_wf; try omega)

/-- The loop body of `aggregateFloatOnly`: as `combineField`, except
that the numeric/numeric case is the pure float path. -/
def combineFieldFloatOnly (ov nv : Value) : Option Value × Option String :=
  if (is_num_type ov).1 && !(is_num_type nv).1 then
    (none, none)
  else if !(is_num_type ov).1 then
    if nv.kind ≠ ov.kind then
      (some nv, none)
    else if nv.kind = .map then
      match ov with
      | .vobj ovm =>
        match nv with
        | .vobj nvm =>
          match aggregateFloatOnly ovm nvm with
          | (m, e) => (some (.vobj m), e)
        | _ => (none, some ("assertion of nv to map[string]interface\x7b\x7d failed"))
      | _ => (none, some ("assertion of ov to map[string]interface\x7b\x7d failed"))
    else if nv.kind = .slice then
      match ov with
      | .varr ovs =>
        match nv with
        | .varr nvs => (some (.varr (ovs ++ nvs)), none)
        | _ => (none, some ("assertion of nv to []interface\x7b\x7d failed"))
      | _ => (none, some ("assertion of ov to []interface\x7b\x7d failed"))
    else
      (some nv, none)
  else
    (some (.vfloat (ov.floatVal + nv.floatVal)), none)
termination_by sizeOf nv
decreasing_by all_goals (simp_wf; try omega)

end

/-- The condition under which the merge of one field runs into a failed
type assertion (statsaggjs.go lines 234-262): old and new value have the
same `reflect.Kind`, that kind is `Map` or `Slice`, and at least one of
the two values does not decompose (is not actually a
`map[string]interface\x7b\x7d` / `[]interface\x7b\x7d`). -/
def assertionFailure (ov nv : Value) : Prop :=
  nv.kind = ov.kind ∧
    ((ov.kind = .map ∧ (ov = .vbadObj ∨ nv = .vbadObj)) ∨
      (ov.kind = .slice ∧ (ov = .vbadArr ∨ nv = .vbadArr)))

/-! ## Association-list lemmas -/

theorem alistLookup_set_self {β : Type} (s : List (String × β)) (k : String) (v : β) :
    alistLookup (alistSet s k v) k = some v := by
  induction s with
  | nil => simp [alistSet, alistLookup]
  | cons hd tl ih =>
    obtain ⟨k', w⟩ := hd
    by_cases h : k' = k <;> simp [alistSet, alistLookup, h, ih]

theorem alistLookup_set_ne {β : Type} (s : List (String × β)) (k f : String) (v : β)
    (h : k ≠ f) : alistLookup (alistSet s k v) f = alistLookup s f := by
  induction s with
  | nil => simp [alistSet, alistLookup, h]
  | cons hd tl ih =>
    obtain ⟨k', w⟩ := hd
    by_cases h' : k' = k
    · subst h'
      simp [alistSet, alistLookup, h]
    · simp [alistSet, alistLookup, h', ih]

theorem alistSet_lookup_eq {β : Type} (s : List (String × β)) (k : String) (v : β)
    (h : alistLookup s k = some v) : alistSet s k v = s := by
  induction s with
  | nil => simp [alistLookup] at h
  | cons hd tl ih =>
    obtain ⟨k', w⟩ := hd
    by_cases h' : k' = k
    · subst h'
      simp [alistLookup] at h
      simp [alistSet, h]
    · simp [alistLookup, h'] at h
      simp [alistSet, h', ih h]

theorem alistSet_lookup_none {β : Type} (s : List (String × β)) (k : String) (v : β)
    (h : alistLookup s k = none) : alistSet s k v = s ++ [(k, v)] := by
  induction s with
  | nil => simp [alistSet]
  | cons hd tl ih =>
    obtain ⟨k', w⟩ := hd
    by_cases h' : k' = k
    · simp [alistLookup, h'] at h
    · simp [alistLookup, h'] at h
      simp [alistSet, h', ih h]

theorem alistLookup_none_iff {β : Type} (s : List (String × β)) (k : String) :
    alistLookup s k = none ↔ k ∉ s.map Prod.fst := by
  induction s with
  | nil => simp [alistLookup]
  | cons hd tl ih =>
    obtain ⟨k', w⟩ := hd
    by_cases h' : k' = k
    · subst h'
      simp [alistLookup]
    · have hne : ¬k = k' := fun he => h' he.symm
      simp [alistLookup, h', ih, hne]

theorem alistLookup_append_left {β : Type} (s t : List (String × β)) (k : String) (v : β)
    (h : alistLookup s k = some v) : alistLookup (s ++ t) k = some v := by
  induction s with
  | nil => simp [alistLookup] at h
  | cons hd tl ih =>
    obtain ⟨k', w⟩ := hd
    by_cases h' : k' = k
    · simp [alistLookup, h'] at h ⊢
      exact h
    · simp [alistLookup, h'] at h ⊢
      exact ih h

theorem alistLookup_append_right {β : Type} (s t : List (String × β)) (k : String)
    (h : alistLookup s k = none) : alistLookup (s ++ t) k = alistLookup t k := by
  induction s with
  | nil => simp
  | cons hd tl ih =>
    obtain ⟨k', w⟩ := hd
    by_cases h' : k' = k
    · simp [alistLookup, h'] at h
    · simp [alistLookup, h'] at h ⊢
      exact ih h

/-! ## Classifier lemmas -/

theorem isNum_iff (v : Value) :
    (is_num_type v).1 = true ↔
      (∃ n, v = .vint n) ∨ (∃ n, v = .vuint n) ∨ (∃ q, v = .vfloat q) := by
  cases v <;> simp [is_num_type]

theorem numeric_not_int_is_float (v : Value) (hnum : (is_num_type v).1 = true)
    (hint : (is_num_type v).2.1 = false) : ∃ q, v = .vfloat q := by
  cases v <;> simp_all [is_num_type]

theorem numericSum_isNum (ov nv : Value) :
    (is_num_type (numericSum ov nv)).1 = true := by
  unfold numericSum
  split_ifs <;> simp [is_num_type]

/-! ## Stepping lemmas for the merge loop -/

theorem aggregate_nil (s : Obj) : aggregate s [] = (s, none) := by
  rw [aggregate.eq_def]

theorem aggregate_cons_absent (s : Obj) (nk : String) (nv : Value) (rest : Obj)
    (h : alistLookup s nk = none) :
    aggregate s ((nk, nv) :: rest) = aggregate (alistSet s nk nv) rest := by
  rw [aggregate.eq_def]; dsimp only; rw [h]

theorem aggregate_cons_found (s : Obj) (nk : String) (nv ov : Value) (rest : Obj)
    (h : alistLookup s nk = some ov) :
    aggregate s ((nk, nv) :: rest) =
      match combineField ov nv with
      | (none, none) => aggregate s rest
      | (some v, none) => aggregate (alistSet s nk v) rest
      | (none, some e) => (s, some e)
      | (some v, some e) => (alistSet s nk v, some e) := by
  rw [aggregate.eq_def]; dsimp only; rw [h]

theorem combineField_drop (ov nv : Value) (hov : (is_num_type ov).1 = true)
    (hnv : (is_num_type nv).1 = false) : combineField ov nv = (none, none) := by
  rw [combineField.eq_def]
  rw [hov, hnv]
  rfl

theorem combineField_num (ov nv : Value) (hov : (is_num_type ov).1 = true)
    (hnv : (is_num_type nv).1 = true) :
    combineField ov nv = (some (numericSum ov nv), none) := by
  rw [combineField.eq_def]
  rw [hov, hnv]
  rfl

theorem combineField_obj (m m' : List (String × Value)) :
    combineField (.vobj m) (.vobj m') =
      (some (.vobj (aggregate m m').1), (aggregate m m').2) := by
  rw [combineField.eq_def]
  simp [is_num_type, Value.kind]

theorem combineField_arr (xs ys : List Value) :
    combineField (.varr xs) (.varr ys) = (some (.varr (xs ++ ys)), none) := by
  rw [combineField.eq_def]
  simp [is_num_type, Value.kind]

theorem combineField_replace (ov nv : Value) (hov : (is_num_type ov).1 = false)
    (hk : nv.kind ≠ ov.kind) : combineField ov nv = (some nv, none) := by
  rw [combineField.eq_def]
  simp [hov, hk]


/-! ## Stepping lemmas for dstatsaggjson's merge loop -/

theorem mergeRecord_nil (s : Obj) : mergeRecord s [] = s := rfl

theorem mergeRecord_cons_absent (s : Obj) (nk : String) (nv : Value) (rest : Obj)
    (h : alistLookup s nk = none) :
    mergeRecord s ((nk, nv) :: rest) = mergeRecord (alistSet s nk nv) rest := by
  rw [mergeRecord]; rw [h]

theorem mergeRecord_cons_drop (s : Obj) (nk : String) (nv ov : Value) (rest : Obj)
    (h : alistLookup s nk = some ov) (hov : (is_num_type ov).1 = true)
    (hnv : (is_num_type nv).1 = false) :
    mergeRecord s ((nk, nv) :: rest) = mergeRecord s rest := by
  rw [mergeRecord]; rw [h]; simp [hov, hnv]

theorem mergeRecord_cons_replace (s : Obj) (nk : String) (nv ov : Value) (rest : Obj)
    (h : alistLookup s nk = some ov) (hov : (is_num_type ov).1 = false) :
    mergeRecord s ((nk, nv) :: rest) = mergeRecord (alistSet s nk nv) rest := by
  rw [mergeRecord]; rw [h]; simp [hov]

theorem mergeRecord_cons_num (s : Obj) (nk : String) (nv ov : Value) (rest : Obj)
    (h : alistLookup s nk = some ov) (hov : (is_num_type ov).1 = true)
    (hnv : (is_num_type nv).1 = true) :
    mergeRecord s ((nk, nv) :: rest) = mergeRecord (alistSet s nk (numericSum ov nv)) rest := by
  rw [mergeRecord]; rw [h]; simp [hov, hnv]

theorem alistLookup_some_mem {β : Type} (s : List (String × β)) (k : String) (v : β)
    (h : alistLookup s k = some v) : k ∈ s.map Prod.fst := by
  by_contra hc
  rw [(alistLookup_none_iff s k).mpr hc] at h
  cases h

/-! ## The numeric-sticky invariant of the two merge loops -/

theorem aggregate_numeric_field (t : Obj) : ∀ (s : Obj) (f : String) (v : Value),
    (t.map Prod.fst).Nodup →
    alistLookup s f = some v → (is_num_type v).1 = true →
    ∃ u, alistLookup (aggregate s t).1 f = some u ∧ (is_num_type u).1 = true ∧
      ((∀ w, alistLookup t f = some w → (is_num_type w).1 = false) → u = v) := by
  induction t with
  | nil =>
    intro s f v _ hv hnum
    rw [aggregate_nil]
    exact ⟨v, hv, hnum, fun _ => rfl⟩
  | cons hd rest ih =>
    obtain ⟨nk, nv⟩ := hd
    intro s f v hnodup hv hnum
    rw [List.map_cons] at hnodup
    have hnodup' : (rest.map Prod.fst).Nodup := (List.nodup_cons.mp hnodup).2
    have hnkrest : nk ∉ rest.map Prod.fst := (List.nodup_cons.mp hnodup).1
    by_cases hkf : nk = f
    · subst hkf
      rw [aggregate_cons_found s nk nv v rest hv]
      by_cases hnvnum : (is_num_type nv).1 = true
      · rw [combineField_num v nv hnum hnvnum]
        dsimp only
        obtain ⟨u, h1, h2, h3⟩ := ih (alistSet s nk (numericSum v nv)) nk (numericSum v nv)
          hnodup' (alistLookup_set_self s nk (numericSum v nv)) (numericSum_isNum v nv)
        refine ⟨u, h1, h2, fun H => ?_⟩
        have hfalse : (is_num_type nv).1 = false := H nv (by simp [alistLookup])
        rw [hnvnum] at hfalse
        cases hfalse
      · rw [combineField_drop v nv hnum (by simpa using hnvnum)]
        dsimp only
        obtain ⟨u, h1, h2, h3⟩ := ih s nk v hnodup' hv hnum
        refine ⟨u, h1, h2, fun _ => ?_⟩
        apply h3
        intro w hw
        rw [(alistLookup_none_iff rest nk).mpr hnkrest] at hw
        cases hw
    · have htrans : ∀ w, alistLookup rest f = some w → alistLookup ((nk, nv) :: rest) f = some w := by
        intro w hw
        simpa [alistLookup, hkf] using hw
      cases hlget : alistLookup s nk with
      | none =>
        rw [aggregate_cons_absent s nk nv rest hlget]
        have hv' : alistLookup (alistSet s nk nv) f = some v := by
          rw [alistLookup_set_ne s nk f nv hkf]; exact hv
        obtain ⟨u, h1, h2, h3⟩ := ih (alistSet s nk nv) f v hnodup' hv' hnum
        exact ⟨u, h1, h2, fun H => h3 (fun w hw => H w (htrans w hw))⟩
      | some ov =>
        rw [aggregate_cons_found s nk nv ov rest hlget]
        rcases hcf : combineField ov nv with ⟨o, e⟩
        cases o with
        | none =>
          cases e with
          | none =>
            dsimp only
            obtain ⟨u, h1, h2, h3⟩ := ih s f v hnodup' hv hnum
            exact ⟨u, h1, h2, fun H => h3 (fun w hw => H w (htrans w hw))⟩
          | some er =>
            dsimp only
            exact ⟨v, hv, hnum, fun _ => rfl⟩
        | some v' =>
          have hv' : alistLookup (alistSet s nk v') f = some v := by
            rw [alistLookup_set_ne s nk f v' hkf]; exact hv
          cases e with
          | none =>
            dsimp only
            obtain ⟨u, h1, h2, h3⟩ := ih (alistSet s nk v') f v hnodup' hv' hnum
            exact ⟨u, h1, h2, fun H => h3 (fun w hw => H w (htrans w hw))⟩
          | some er =>
            dsimp only
            exact ⟨v, hv', hnum, fun _ => rfl⟩

theorem mergeRecord_numeric_field (t : Obj) : ∀ (s : Obj) (f : String) (v : Value),
    (t.map Prod.fst).Nodup →
    alistLookup s f = some v → (is_num_type v).1 = true →
    ∃ u, alistLookup (mergeRecord s t) f = some u ∧ (is_num_type u).1 = true ∧
      ((∀ w, alistLookup t f = some w → (is_num_type w).1 = false) → u = v) := by
  induction t with
  | nil =>
    intro s f v _ hv hnum
    exact ⟨v, hv, hnum, fun _ => rfl⟩
  | cons hd rest ih =>
    obtain ⟨nk, nv⟩ := hd
    intro s f v hnodup hv hnum
    rw [List.map_cons] at hnodup
    have hnodup' : (rest.map Prod.fst).Nodup := (List.nodup_cons.mp hnodup).2
    have hnkrest : nk ∉ rest.map Prod.fst := (List.nodup_cons.mp hnodup).1
    by_cases hkf : nk = f
    · subst hkf
      by_cases hnvnum : (is_num_type nv).1 = true
      · rw [mergeRecord_cons_num s nk nv v rest hv hnum hnvnum]
        obtain ⟨u, h1, h2, h3⟩ := ih (alistSet s nk (numericSum v nv)) nk (numericSum v nv)
          hnodup' (alistLookup_set_self s nk (numericSum v nv)) (numericSum_isNum v nv)
        refine ⟨u, h1, h2, fun H => ?_⟩
        have hfalse : (is_num_type nv).1 = false := H nv (by simp [alistLookup])
        rw [hnvnum] at hfalse
        cases hfalse
      · rw [mergeRecord_cons_drop s nk nv v rest hv hnum (by simpa using hnvnum)]
        obtain ⟨u, h1, h2, h3⟩ := ih s nk v hnodup' hv hnum
        refine ⟨u, h1, h2, fun _ => ?_⟩
        apply h3
        intro w hw
        rw [(alistLookup_none_iff rest nk).mpr hnkrest] at hw
        cases hw
    · have htrans : ∀ w, alistLookup rest f = some w → alistLookup ((nk, nv) :: rest) f = some w := by
        intro w hw
        simpa [alistLookup, hkf] using hw
      have hv' : alistLookup (alistSet s nk nv) f = some v := by
        rw [alistLookup_set_ne s nk f nv hkf]; exact hv
      cases hlget : alistLookup s nk with
      | none =>
        rw [mergeRecord_cons_absent s nk nv rest hlget]
        obtain ⟨u, h1, h2, h3⟩ := ih (alistSet s nk nv) f v hnodup' hv' hnum
        exact ⟨u, h1, h2, fun H => h3 (fun w hw => H w (htrans w hw))⟩
      | some ov =>
        by_cases hovnum : (is_num_type ov).1 = true
        · by_cases hnvnum : (is_num_type nv).1 = true
          · rw [mergeRecord_cons_num s nk nv ov rest hlget hovnum hnvnum]
            have hv'' : alistLookup (alistSet s nk (numericSum ov nv)) f = some v := by
              rw [alistLookup_set_ne s nk f _ hkf]; exact hv
            obtain ⟨u, h1, h2, h3⟩ := ih _ f v hnodup' hv'' hnum
            exact ⟨u, h1, h2, fun H => h3 (fun w hw => H w (htrans w hw))⟩
          · rw [mergeRecord_cons_drop s nk nv ov rest hlget hovnum (by simpa using hnvnum)]
            obtain ⟨u, h1, h2, h3⟩ := ih s f v hnodup' hv hnum
            exact ⟨u, h1, h2, fun H => h3 (fun w hw => H w (htrans w hw))⟩
        · rw [mergeRecord_cons_replace s nk nv ov rest hlget (by simpa using hovnum)]
          obtain ⟨u, h1, h2, h3⟩ := ih (alistSet s nk nv) f v hnodup' hv' hnum
          exact ⟨u, h1, h2, fun H => h3 (fun w hw => H w (htrans w hw))⟩

/-! ## Disjoint-key merges -/

theorem aggregate_disjoint (t : Obj) : ∀ (s : Obj),
    (∀ k, k ∈ t.map Prod.fst → alistLookup s k = none) →
    (t.map Prod.fst).Nodup →
    aggregate s t = (s ++ t, none) := by
  induction t with
  | nil =>
    intro s _ _
    rw [aggregate_nil]
    simp
  | cons hd rest ih =>
    obtain ⟨nk, nv⟩ := hd
    intro s hdisj hnodup
    rw [List.map_cons] at hnodup
    have hnkrest : nk ∉ rest.map Prod.fst := (List.nodup_cons.mp hnodup).1
    have habs : alistLookup s nk = none := hdisj nk (by simp)
    rw [aggregate_cons_absent s nk nv rest habs, alistSet_lookup_none s nk nv habs]
    rw [ih (s ++ [(nk, nv)]) ?_ (List.nodup_cons.mp hnodup).2]
    · simp
    · intro k hk
      have hks : alistLookup s k = none := hdisj k (by simp [hk])
      have hkne : ¬nk = k := fun he => hnkrest (he ▸ hk)
      rw [alistLookup_append_right s [(nk, nv)] k hks]
      simp [alistLookup, hkne]

/-! ## Assertion-failure behaviour -/

theorem combineField_assertFail (ov nv : Value) (h : assertionFailure ov nv) :
    ∃ e, combineField ov nv = (none, some e) := by
  obtain ⟨hk, hcase⟩ := h
  rcases hcase with ⟨hkm, hbad⟩ | ⟨hks, hbad⟩
  · have hnvk : nv.kind = GoKind.map := hk.trans hkm
    cases ov
    case vobj m =>
      have hnv : nv = .vbadObj := hbad.resolve_left (by intro h1; cases h1)
      subst hnv
      exact ⟨_, by rw [combineField.eq_def]; rfl⟩
    case vbadObj =>
      cases nv
      all_goals first
        | exact ⟨_, by rw [combineField.eq_def]; rfl⟩
        | simp [Value.kind] at hnvk
    all_goals simp [Value.kind] at hkm
  · have hnvk : nv.kind = GoKind.slice := hk.trans hks
    cases ov
    case varr l =>
      have hnv : nv = .vbadArr := hbad.resolve_left (by intro h1; cases h1)
      subst hnv
      exact ⟨_, by rw [combineField.eq_def]; rfl⟩
    case vbadArr =>
      cases nv
      all_goals first
        | exact ⟨_, by rw [combineField.eq_def]; rfl⟩
        | simp [Value.kind] at hnvk
    all_goals simp [Value.kind] at hks

/-! ## The float-only invariant -/

theorem noIntFields_lookup (s : Obj) (k : String) (v : Value)
    (hs : noIntFields s = true) (h : alistLookup s k = some v) : v.noInt = true := by
  induction s with
  | nil => simp [alistLookup] at h
  | cons hd tl ih =>
    obtain ⟨k', w⟩ := hd
    rw [noIntFields] at hs
    simp only [Bool.and_eq_true] at hs
    by_cases hk : k' = k
    · simp [alistLookup, hk] at h
      rw [← h]
      exact hs.1
    · simp [alistLookup, hk] at h
      exact ih hs.2 h

theorem noIntFields_set (s : Obj) (k : String) (v : Value)
    (hs : noIntFields s = true) (hv : v.noInt = true) :
    noIntFields (alistSet s k v) = true := by
  induction s with
  | nil => simp [alistSet, noIntFields, hv]
  | cons hd tl ih =>
    obtain ⟨k', w⟩ := hd
    rw [noIntFields] at hs
    simp only [Bool.and_eq_true] at hs
    by_cases hk : k' = k
    · simp [alistSet, hk, noIntFields, hv, hs.2]
    · simp only [alistSet, hk, if_false]
      rw [noIntFields]
      simp [hs.1, ih hs.2]

theorem noInt_numeric_float (v : Value) (hni : v.noInt = true)
    (hnum : (is_num_type v).1 = true) : ∃ q, v = .vfloat q := by
  cases v <;> simp_all [is_num_type, Value.noInt]

theorem noIntElems_append (xs ys : List Value) :
    noIntElems (xs ++ ys) = (noIntElems xs && noIntElems ys) := by
  induction xs with
  | nil => simp [noIntElems]
  | cons x tl ih => simp [noIntElems, ih, Bool.and_assoc]

theorem aggregateFloatOnly_nil (s : Obj) : aggregateFloatOnly s [] = (s, none) := by
  rw [aggregateFloatOnly.eq_def]

theorem aggregateFloatOnly_cons_absent (s : Obj) (nk : String) (nv : Value) (rest : Obj)
    (h : alistLookup s nk = none) :
    aggregateFloatOnly s ((nk, nv) :: rest) = aggregateFloatOnly (alistSet s nk nv) rest := by
  rw [aggregateFloatOnly.eq_def]; dsimp only; rw [h]

theorem aggregateFloatOnly_cons_found (s : Obj) (nk : String) (nv ov : Value) (rest : Obj)
    (h : alistLookup s nk = some ov) :
    aggregateFloatOnly s ((nk, nv) :: rest) =
      match combineFieldFloatOnly ov nv with
      | (none, none) => aggregateFloatOnly s rest
      | (some v, none) => aggregateFloatOnly (alistSet s nk v) rest
      | (none, some e) => (s, some e)
      | (some v, some e) => (alistSet s nk v, some e) := by
  rw [aggregateFloatOnly.eq_def]; dsimp only; rw [h]

/-- Is the optional assigned value free of integer values? -/
def optNoInt : Option Value → Bool
  | none => true
  | some v => v.noInt

theorem noInt_kind_map (v : Value) (hk : v.kind = GoKind.map) :
    (∃ m, v = .vobj m) ∨ v = .vbadObj := by
  cases v <;> simp_all [Value.kind]

theorem noInt_kind_slice (v : Value) (hk : v.kind = GoKind.slice) :
    (∃ l, v = .varr l) ∨ v = .vbadArr := by
  cases v <;> simp_all [Value.kind]

theorem combineFieldFloatOnly_obj (m m' : List (String × Value)) :
    combineFieldFloatOnly (.vobj m) (.vobj m') =
      (some (.vobj (aggregateFloatOnly m m').1), (aggregateFloatOnly m m').2) := by
  rw [combineFieldFloatOnly.eq_def]
  simp [is_num_type, Value.kind]

theorem combineFieldFloatOnly_arr (xs ys : List Value) :
    combineFieldFloatOnly (.varr xs) (.varr ys) = (some (.varr (xs ++ ys)), none) := by
  rw [combineFieldFloatOnly.eq_def]
  simp [is_num_type, Value.kind]

theorem combineFieldFloatOnly_num (ov nv : Value) (hov : (is_num_type ov).1 = true)
    (hnv : (is_num_type nv).1 = true) :
    combineFieldFloatOnly ov nv = (some (.vfloat (ov.floatVal + nv.floatVal)), none) := by
  rw [combineFieldFloatOnly.eq_def]
  rw [hov, hnv]
  rfl

theorem aggregate_floatOnly_key (n : ℕ) :
    (∀ (t s : Obj), sizeOf t ≤ n → noIntFields s = true → noIntFields t = true →
      aggregate s t = aggregateFloatOnly s t ∧ noIntFields (aggregate s t).1 = true) ∧
    (∀ (ov nv : Value), sizeOf nv ≤ n → ov.noInt = true → nv.noInt = true →
      combineField ov nv = combineFieldFloatOnly ov nv ∧
        optNoInt (combineField ov nv).1 = true) := by
  induction n with
  | zero =>
    constructor
    · intro t s ht
      exfalso
      cases t <;> simp at ht
    · intro ov nv hnv
      exfalso
      cases ov <;> cases nv <;> simp at hnv
  | succ n ih =>
    constructor
    · intro t s ht hs hti
      match t with
      | [] =>
        rw [aggregate_nil, aggregateFloatOnly_nil]
        exact ⟨rfl, hs⟩
      | (nk, nv) :: rest =>
        have hsz : sizeOf rest ≤ n := by
          simp at ht; omega
        have hsznv : sizeOf nv ≤ n := by
          simp at ht; omega
        rw [noIntFields] at hti
        simp only [Bool.and_eq_true] at hti
        cases hlget : alistLookup s nk with
        | none =>
          rw [aggregate_cons_absent s nk nv rest hlget,
            aggregateFloatOnly_cons_absent s nk nv rest hlget]
          exact ih.1 rest (alistSet s nk nv) hsz (noIntFields_set s nk nv hs hti.1) hti.2
        | some ov =>
          have hovni : ov.noInt = true := noIntFields_lookup s nk ov hs hlget
          obtain ⟨hcfeq, hcfni⟩ := ih.2 ov nv hsznv hovni hti.1
          rw [aggregate_cons_found s nk nv ov rest hlget,
            aggregateFloatOnly_cons_found s nk nv ov rest hlget, ← hcfeq]
          rcases hcf : combineField ov nv with ⟨o, e⟩
          rw [hcf] at hcfni
          cases o with
          | none =>
            cases e with
            | none =>
              dsimp only
              exact ih.1 rest s hsz hs hti.2
            | some er =>
              dsimp only
              exact ⟨rfl, hs⟩
          | some v =>
            simp only [optNoInt] at hcfni
            cases e with
            | none =>
              dsimp only
              exact ih.1 rest (alistSet s nk v) hsz (noIntFields_set s nk v hs hcfni) hti.2
            | some er =>
              dsimp only
              exact ⟨rfl, noIntFields_set s nk v hs hcfni⟩
    · intro ov nv hnvsz hovni hnvni
      by_cases h1 : ((is_num_type ov).1 && !(is_num_type nv).1) = true
      · rw [combineField.eq_def, combineFieldFloatOnly.eq_def]
        simp [h1, optNoInt]
      · by_cases h2 : (!(is_num_type ov).1) = true
        · by_cases h3 : nv.kind ≠ ov.kind
          · rw [combineField.eq_def, combineFieldFloatOnly.eq_def]
            simp [h1, h2, h3, optNoInt, hnvni]
          · by_cases h4 : nv.kind = GoKind.map
            · have hovk : ov.kind = GoKind.map := (not_ne_iff.mp h3).symm.trans h4
              rcases noInt_kind_map ov hovk with ⟨m, rfl⟩ | rfl
              · rcases noInt_kind_map nv h4 with ⟨m', rfl⟩ | rfl
                · have hsub : sizeOf m' ≤ n := by
                    simp at hnvsz; omega
                  obtain ⟨heq, hni⟩ := ih.1 m' m hsub
                    (by simpa [Value.noInt] using hovni)
                    (by simpa [Value.noInt] using hnvni)
                  rw [combineField_obj, combineFieldFloatOnly_obj, ← heq]
                  exact ⟨rfl, by simp [optNoInt, Value.noInt, hni]⟩
                · rw [combineField.eq_def, combineFieldFloatOnly.eq_def]
                  simp [is_num_type, Value.kind, optNoInt]
              · rcases noInt_kind_map nv h4 with ⟨m', rfl⟩ | rfl <;>
                  (rw [combineField.eq_def, combineFieldFloatOnly.eq_def];
                    simp [is_num_type, Value.kind, optNoInt])
            · by_cases h5 : nv.kind = GoKind.slice
              · have hovk : ov.kind = GoKind.slice := (not_ne_iff.mp h3).symm.trans h5
                rcases noInt_kind_slice ov hovk with ⟨l, rfl⟩ | rfl
                · rcases noInt_kind_slice nv h5 with ⟨l', rfl⟩ | rfl
                  · rw [combineField_arr, combineFieldFloatOnly_arr]
                    refine ⟨rfl, ?_⟩
                    simp only [optNoInt, Value.noInt, noIntElems_append]
                    simp only [Value.noInt] at hovni hnvni
                    simp [hovni, hnvni]
                  · rw [combineField.eq_def, combineFieldFloatOnly.eq_def]
                    simp [is_num_type, Value.kind, optNoInt]
                · rcases noInt_kind_slice nv h5 with ⟨l', rfl⟩ | rfl <;>
                    (rw [combineField.eq_def, combineFieldFloatOnly.eq_def];
                      simp [is_num_type, Value.kind, optNoInt])
              · rw [combineField.eq_def, combineFieldFloatOnly.eq_def]
                simp [h1, h2, h3, h4, h5, optNoInt, hnvni]
        · have hovnum : (is_num_type ov).1 = true := by
            simpa using h2
          have hnvnum : (is_num_type nv).1 = true := by
            rcases h : (is_num_type nv).1 with _ | _
            · exfalso
              exact h1 (by simp [hovnum, h])
            · rfl
          obtain ⟨a, rfl⟩ := noInt_numeric_float ov hovni hovnum
          obtain ⟨b, rfl⟩ := noInt_numeric_float nv hnvni hnvnum
          rw [combineField_num _ _ hovnum hnvnum, combineFieldFloatOnly_num _ _ hovnum hnvnum]
          simp [numericSum, is_num_type, widenToFloat, Value.floatVal, optNoInt, Value.noInt]

/-! ## Float-only invariant at the ingestion level -/

/-- Every numeric value in this line's parsed payload is a float. -/
def lineNoInt : InputLine → Bool
  | .record _ (some o) => noIntFields o
  | _ => true

/-- Every numeric value in every accumulator of the store is a float. -/
def storeNoInt (d : List (String × Obj)) : Bool :=
  d.all (fun p => noIntFields p.2)

theorem storeNoInt_lookup (d : List (String × Obj)) (k : String) (o : Obj)
    (hd : storeNoInt d = true) (h : alistLookup d k = some o) : noIntFields o = true := by
  induction d with
  | nil => simp [alistLookup] at h
  | cons hd' tl ih =>
    obtain ⟨k', w⟩ := hd'
    simp only [storeNoInt, List.all_cons, Bool.and_eq_true] at hd
    by_cases hk : k' = k
    · simp [alistLookup, hk] at h
      rw [← h]
      exact hd.1
    · simp [alistLookup, hk] at h
      exact ih hd.2 h

theorem storeNoInt_set (d : List (String × Obj)) (k : String) (o : Obj)
    (hd : storeNoInt d = true) (ho : noIntFields o = true) :
    storeNoInt (alistSet d k o) = true := by
  induction d with
  | nil => simp [alistSet, storeNoInt, ho]
  | cons hd' tl ih =>
    obtain ⟨k', w⟩ := hd'
    simp only [storeNoInt, List.all_cons, Bool.and_eq_true] at hd
    by_cases hk : k' = k
    · simp only [alistSet, hk, if_true, storeNoInt, List.all_cons, Bool.and_eq_true]
      exact ⟨ho, hd.2⟩
    · simp only [alistSet, hk, if_false]
      simp only [storeNoInt, List.all_cons, Bool.and_eq_true]
      exact ⟨hd.1, ih hd.2⟩

theorem processLine_noInt (limit : ℤ) (st : AggState) (l : InputLine)
    (hst : storeNoInt st.data = true) (hl : lineNoInt l = true) :
    storeNoInt (processLine limit st l).data = true := by
  rw [processLine.eq_def]
  by_cases hf : st.fatalErr = true
  · rw [if_pos hf]
    exact hst
  · rw [if_neg hf]
    cases l with
    | noDelim => exact hst
    | record key p =>
      cases p with
      | none => exact hst
      | some o =>
        simp only [lineNoInt] at hl
        cases hlook : alistLookup st.data key with
        | none =>
          by_cases hlim : 0 < limit ∧ limit ≤ (st.data.length : ℤ)
          · simp only [hlook, if_pos hlim]
            simp [storeNoInt, hl]
          · simp only [hlook, if_neg hlim]
            exact storeNoInt_set st.data key o hst hl
        | some stored =>
          have hstored := storeNoInt_lookup st.data key stored hst hlook
          have hagg := ((aggregate_floatOnly_key (sizeOf o)).1 o stored le_rfl hstored hl).2
          simp only [hlook]
          exact storeNoInt_set st.data key _ hst hagg

theorem process_file_noInt (limit : ℤ) (lines : List InputLine) : ∀ (st : AggState),
    storeNoInt st.data = true → (∀ l ∈ lines, lineNoInt l = true) →
    storeNoInt (process_file limit st lines).data = true := by
  induction lines with
  | nil =>
    intro st hst _
    exact hst
  | cons l rest ih =>
    intro st hst hl
    have h1 : process_file limit st (l :: rest) =
        process_file limit (processLine limit st l) rest := rfl
    rw [h1]
    exact ih (processLine limit st l)
      (processLine_noInt limit st l hst (hl l (by simp)))
      (fun x hx => hl x (by simp [hx]))

/-! ## Recoverable parse errors -/

theorem processLine_parseErr (limit : ℤ) (st : AggState) (key : String) :
    processLine limit st (.record key none) = st := by
  cases h : st.fatalErr <;> simp [processLine, h]

/-! ## The claims -/

/-- C1: Numeric-sticky rule.  For every accumulator field `f` currently
holding a numeric value `v` (signed int, unsigned int, or float), and
every incoming record (field names unique, as in any Go map): after the
merge — in both programs' merge loops — `f` still holds a numeric value,
and if the incoming record's value for `f` is non-numeric (or absent),
`f` is exactly its prior value `v`.  Once numeric, a field remains
numeric (retained or further summed) across every subsequent merge. -/
theorem C1_numeric_sticky (stored incoming : Obj) (f : String) (v : Value)
    (hnodup : (incoming.map Prod.fst).Nodup)
    (hv : alistLookup stored f = some v) (hnum : (is_num_type v).1 = true) :
    (∃ u, alistLookup (aggregate stored incoming).1 f = some u ∧
      (is_num_type u).1 = true ∧
      ((∀ w, alistLookup incoming f = some w → (is_num_type w).1 = false) → u = v)) ∧
    (∃ u, alistLookup (mergeRecord stored incoming) f = some u ∧
      (is_num_type u).1 = true ∧
      ((∀ w, alistLookup incoming f = some w → (is_num_type w).1 = false) → u = v)) :=
  ⟨aggregate_numeric_field incoming stored f v hnodup hv hnum,
    mergeRecord_numeric_field incoming stored f v hnodup hv hnum⟩

/-- Witness for C1: field `F` numeric (`int64 1`), incoming sets `F` to
the string `"x"` — after both merges `F` still equals `int64 1`. -/
theorem C1_witness :
    alistLookup (aggregate [("F", Value.vint 1)] [("F", Value.vstr "x")]).1 "F"
        = some (Value.vint 1) ∧
    alistLookup (mergeRecord [("F", Value.vint 1)] [("F", Value.vstr "x")]) "F"
        = some (Value.vint 1) := by
  have hmono : ∀ w : Value, alistLookup [("F", Value.vstr "x")] "F" = some w →
      (is_num_type w).1 = false := by
    intro w hw
    simp [alistLookup] at hw
    rw [← hw]
    rfl
  obtain ⟨⟨u1, hu1, _, himp1⟩, ⟨u2, hu2, _, himp2⟩⟩ :=
    C1_numeric_sticky [("F", Value.vint 1)] [("F", Value.vstr "x")] "F" (Value.vint 1)
      (by simp) (by simp [alistLookup]) rfl
  rw [hu1, hu2, himp1 hmono, himp2 hmono]
  exact ⟨rfl, rfl⟩

/-- C2 counterexample: the claim "all other fields of the same incoming
record still merge normally" is false.  With the accumulator holding a
non-decomposable Map-kind value at field `"a"` and the string `"old"`
at field `"b"`, the incoming record `\x7b"a": \x7b\x7d, "b": "new"\x7d` hits the
assertion failure on `"a"`; `aggregate` returns the error at once, so
field `"b"` is NOT merged: it still reads `"old"`, not `"new"` (under
string last-write-wins it would have become `"new"`). -/
theorem C2_counterexample :
    alistLookup ([("a", Value.vobj []), ("b", Value.vstr "new")] : Obj) "b"
        = some (.vstr "new") ∧
    (aggregate [("a", Value.vbadObj), ("b", Value.vstr "old")]
        [("a", Value.vobj []), ("b", Value.vstr "new")]).2
      = some ("assertion of ov to map[string]interface\x7b\x7d failed") ∧
    alistLookup (aggregate [("a", Value.vbadObj), ("b", Value.vstr "old")]
        [("a", Value.vobj []), ("b", Value.vstr "new")]).1 "b"
      = some (.vstr "old") ∧
    Value.vstr "old" ≠ Value.vstr "new" := by
  refine ⟨by simp [alistLookup], ?_, ?_, by simp⟩ <;>
    simp [aggregate, combineField, alistLookup, is_num_type, Value.kind]

/-- C2 (amended): when a field's value hits a failed decomposition (a
type assertion failure on a Map- or Slice-kind value), the engine
emits a diagnostic and aborts the merge of the whole remainder of the
record: the failing field keeps its prior value and every field after
it in iteration order is skipped (the store is returned unchanged from
that point on); fields iterated earlier keep their merges. -/
theorem C2_field_failure_aborts (stored : Obj) (nk : String) (ov nv : Value) (rest : Obj)
    (h : alistLookup stored nk = some ov) (hfail : assertionFailure ov nv) :
    ∃ e, aggregate stored ((nk, nv) :: rest) = (stored, some e) := by
  obtain ⟨e, he⟩ := combineField_assertFail ov nv hfail
  exact ⟨e, by rw [aggregate_cons_found stored nk nv ov rest h, he]⟩

/-- Witness for C2 (amended): concrete assertion failure at field
`"a"`, with a later field `"b"` present — the store comes back
unchanged with an error. -/
theorem C2_witness :
    ∃ e, aggregate [("a", Value.vbadObj)] [("a", Value.vobj []), ("b", Value.vstr "z")]
      = ([("a", Value.vbadObj)], some e) :=
  C2_field_failure_aborts [("a", Value.vbadObj)] "a" Value.vbadObj (Value.vobj [])
    [("b", Value.vstr "z")] (by simp [alistLookup])
    ⟨rfl, Or.inl ⟨rfl, Or.inl rfl⟩⟩

/-- C3: Nested object merge is structurally recursive.  When the stored
and incoming values of a field are both objects, `aggregate` recursively
merges the two objects in place (same combine policy) and stores the
result; and the concrete scenario: ingesting `\x7b"x":\x7b"y":1\x7d\x7d` then
`\x7b"x":\x7b"y":2\x7d\x7d` into an empty store (JSON numbers decode as floats)
yields `\x7b"x":\x7b"y":3\x7d\x7d`. -/
theorem C3_nested_object_merge :
    (∀ (s : Obj) (k : String) (m m' : List (String × Value)),
      alistLookup s k = some (.vobj m) →
      aggregate s [(k, .vobj m')] =
        (alistSet s k (.vobj (aggregate m m').1), (aggregate m m').2)) ∧
    (processLine 0 (processLine 0 ⟨[], [], false⟩
        (.record "foo" (some [("x", .vobj [("y", .vfloat 1)])])))
        (.record "foo" (some [("x", .vobj [("y", .vfloat 2)])]))).data
      = [("foo", [("x", Value.vobj [("y", Value.vfloat 3)])])] := by
  constructor
  · intro s k m m' h
    rw [aggregate_cons_found s k _ _ [] h, combineField_obj]
    rcases haggr : aggregate m m' with ⟨mm, me⟩
    cases me <;> simp [aggregate_nil]
  · simp [processLine, alistLookup, alistSet, aggregate, combineField, is_num_type,
      Value.kind, numericSum, widenToFloat, Value.floatVal]
    norm_num

/-- Witness for C3: the recursive-merge equation applied at a concrete
store with an object-valued field. -/
theorem C3_witness :
    aggregate [("x", Value.vobj [("y", Value.vfloat 1)])]
        [("x", Value.vobj [("y", Value.vfloat 2)])] =
      (alistSet [("x", Value.vobj [("y", Value.vfloat 1)])] "x"
        (Value.vobj (aggregate [("y", Value.vfloat 1)] [("y", Value.vfloat 2)]).1),
       (aggregate [("y", Value.vfloat 1)] [("y", Value.vfloat 2)]).2) :=
  C3_nested_object_merge.1 [("x", Value.vobj [("y", Value.vfloat 1)])] "x"
    [("y", Value.vfloat 1)] [("y", Value.vfloat 2)] (by simp [alistLookup])

/-- C4: Array concatenation preserves order.  When stored and incoming
values of a field are both arrays, the merge stores the old elements
followed by the new elements, in order, with no deduplication; merging
`["a"]`, then `["b"]`, then `["c"]` yields `["a","b","c"]` exactly. -/
theorem C4_array_concat :
    (∀ xs ys : List Value,
      combineField (.varr xs) (.varr ys) = (some (.varr (xs ++ ys)), none)) ∧
    (∀ (s : Obj) (k : String) (xs ys : List Value) (rest : Obj),
      alistLookup s k = some (.varr xs) →
      aggregate s ((k, .varr ys) :: rest) =
        aggregate (alistSet s k (.varr (xs ++ ys))) rest) ∧
    (aggregate (aggregate [("versions", Value.varr [.vstr "a"])]
          [("versions", Value.varr [.vstr "b"])]).1
        [("versions", Value.varr [.vstr "c"])]).1
      = [("versions", Value.varr [.vstr "a", .vstr "b", .vstr "c"])] := by
  refine ⟨combineField_arr, ?_, ?_⟩
  · intro s k xs ys rest h
    rw [aggregate_cons_found s k _ _ rest h, combineField_arr]
  · simp [aggregate, combineField, alistLookup, alistSet, is_num_type, Value.kind]

/-- Witness for C4: the array-append step applied at a concrete store. -/
theorem C4_witness :
    aggregate [("v", Value.varr [.vstr "a"])] [("v", Value.varr [.vstr "b"])] =
      aggregate (alistSet [("v", Value.varr [.vstr "a"])] "v"
        (Value.varr [.vstr "a", .vstr "b"])) [] :=
  C4_array_concat.2.1 [("v", Value.varr [.vstr "a"])] "v" [.vstr "a"] [.vstr "b"] []
    (by simp [alistLookup])

/-- C5: Disjoint-field merge is a union.  If the incoming record's field
names (unique, as in a Go map) are all absent from the accumulator, the
merged accumulator's field sequence is the accumulator's fields followed
by the incoming fields, every field keeps its single source value, and
no error occurs. -/
theorem C5_disjoint_union (s t : Obj)
    (hdisj : ∀ k, k ∈ t.map Prod.fst → alistLookup s k = none)
    (hnodup : (t.map Prod.fst).Nodup) :
    (aggregate s t).1.map Prod.fst = s.map Prod.fst ++ t.map Prod.fst ∧
    (∀ k v, alistLookup s k = some v → alistLookup (aggregate s t).1 k = some v) ∧
    (∀ k v, alistLookup t k = some v → alistLookup (aggregate s t).1 k = some v) ∧
    (aggregate s t).2 = none := by
  have h := aggregate_disjoint t s hdisj hnodup
  rw [h]
  refine ⟨by simp, ?_, ?_, rfl⟩
  · intro k v hv
    exact alistLookup_append_left s t k v hv
  · intro k v hv
    have hnone : alistLookup s k = none := hdisj k (alistLookup_some_mem t k v hv)
    rw [alistLookup_append_right s t k hnone]
    exact hv

/-- Witness for C5: disjoint single-field records merge to the exact
two-field union. -/
theorem C5_witness :
    (aggregate [("a", Value.vfloat 1)] [("b", Value.vstr "x")]).1.map Prod.fst
        = ["a", "b"] ∧
    alistLookup (aggregate [("a", Value.vfloat 1)] [("b", Value.vstr "x")]).1 "a"
        = some (Value.vfloat 1) ∧
    alistLookup (aggregate [("a", Value.vfloat 1)] [("b", Value.vstr "x")]).1 "b"
        = some (Value.vstr "x") ∧
    (aggregate [("a", Value.vfloat 1)] [("b", Value.vstr "x")]).2 = none := by
  obtain ⟨h1, h2, h3, h4⟩ :=
    C5_disjoint_union [("a", Value.vfloat 1)] [("b", Value.vstr "x")]
      (by intro k hk; simp at hk; simp [hk, alistLookup]) (by simp)
  exact ⟨by simpa using h1,
    h2 "a" (Value.vfloat 1) (by simp [alistLookup]),
    h3 "b" (Value.vstr "x") (by simp [alistLookup]),
    h4⟩

/-- C6: Float widening rule.  For two numeric operands with at least one
float, the merge widens both to `float64` and stores the float sum; and
conversely a merge of two numeric operands stores a float only when at
least one operand was already a float (two integers sum as integers);
and `aggregate` indeed combines colliding numeric fields with
`numericSum`. -/
theorem C6_float_widening :
    (∀ ov nv : Value, (is_num_type ov).1 = true → (is_num_type nv).1 = true →
      (ov.kind = .float64 ∨ nv.kind = .float64) →
      numericSum ov nv = .vfloat (widenToFloat ov + widenToFloat nv)) ∧
    (∀ ov nv : Value, (is_num_type ov).1 = true → (is_num_type nv).1 = true →
      ∀ q, numericSum ov nv = .vfloat q →
      (ov.kind = .float64 ∨ nv.kind = .float64)) ∧
    (∀ (s : Obj) (k : String) (ov nv : Value) (rest : Obj),
      alistLookup s k = some ov → (is_num_type ov).1 = true →
      (is_num_type nv).1 = true →
      aggregate s ((k, nv) :: rest) =
        aggregate (alistSet s k (numericSum ov nv)) rest) := by
  refine ⟨?_, ?_, ?_⟩
  · intro ov nv hov hnv hfl
    rcases hfl with h | h
    · cases ov <;> simp_all [Value.kind]
      simp [numericSum, is_num_type]
    · cases nv <;> simp_all [Value.kind]
      cases ov <;> simp_all [numericSum, is_num_type]
  · intro ov nv hov hnv q hq
    cases ov <;> cases nv <;> simp_all [is_num_type, numericSum, Value.kind]
  · intro s k ov nv rest h hov hnv
    rw [aggregate_cons_found s k _ _ rest h, combineField_num _ _ hov hnv]

/-- Witness for C6: `int64 2 + float64 1.5` widens and sums to
`float64 3.5`, via the merge. -/
theorem C6_witness :
    numericSum (Value.vint 2) (Value.vfloat (3 / 2))
        = .vfloat (widenToFloat (Value.vint 2) + widenToFloat (Value.vfloat (3 / 2))) ∧
    aggregate [("n", Value.vint 2)] [("n", Value.vfloat (3 / 2))] =
      aggregate (alistSet [("n", Value.vint 2)] "n"
        (numericSum (Value.vint 2) (Value.vfloat (3 / 2)))) [] :=
  ⟨C6_float_widening.1 (Value.vint 2) (Value.vfloat (3 / 2)) rfl rfl (Or.inr rfl),
    C6_float_widening.2.2 [("n", Value.vint 2)] "n" (Value.vint 2)
      (Value.vfloat (3 / 2)) [] (by simp [alistLookup]) rfl rfl⟩

/-- C7: Mixed-signedness integer summation.  For one signed and one
unsigned integer operand the engine widens the unsigned operand with
`int64(...)` (bit reinterpretation) and sums as signed 64-bit with
native wraparound, storing a signed result — in the shared numeric
block, and concretely in both programs' merge loops. -/
theorem C7_mixed_signedness :
    (∀ (a : ℤ) (u : ℕ),
      numericSum (.vint a) (.vuint u) = .vint (wrapInt64 (a + int64OfUint64 u))) ∧
    (∀ (u : ℕ) (a : ℤ),
      numericSum (.vuint u) (.vint a) = .vint (wrapInt64 (int64OfUint64 u + a))) ∧
    (∀ (s : Obj) (k : String) (rest : Obj) (u : ℕ) (a : ℤ),
      alistLookup s k = some (.vuint u) →
      mergeRecord s ((k, .vint a) :: rest) =
        mergeRecord (alistSet s k (.vint (wrapInt64 (int64OfUint64 u + a)))) rest) ∧
    (∀ (s : Obj) (k : String) (rest : Obj) (u : ℕ) (a : ℤ),
      alistLookup s k = some (.vuint u) →
      aggregate s ((k, .vint a) :: rest) =
        aggregate (alistSet s k (.vint (wrapInt64 (int64OfUint64 u + a)))) rest) := by
  refine ⟨fun a u => rfl, fun u a => rfl, ?_, ?_⟩
  · intro s k rest u a h
    rw [mergeRecord_cons_num s k (Value.vint a) (Value.vuint u) rest h (by rfl) (by rfl)]
    rfl
  · intro s k rest u a h
    rw [aggregate_cons_found s k (Value.vint a) (Value.vuint u) rest h,
      combineField_num (Value.vuint u) (Value.vint a) (by rfl) (by rfl)]
    rfl

/-- Witness for C7: `uint64 (2^63) + int64 1` wraps: `int64(2^63)` is
`-2^63`, so the stored signed sum is `-2^63 + 1`, in both merge loops. -/
theorem C7_witness :
    numericSum (.vuint (2 ^ 63)) (.vint 1) = .vint (-(2 ^ 63) + 1) ∧
    mergeRecord [("n", Value.vuint (2 ^ 63))] [("n", Value.vint 1)] =
      mergeRecord (alistSet [("n", Value.vuint (2 ^ 63))] "n"
        (.vint (wrapInt64 (int64OfUint64 (2 ^ 63) + 1)))) [] := by
  constructor
  · rw [C7_mixed_signedness.2.1 (2 ^ 63) 1]
    norm_num [int64OfUint64, wrapInt64]
  · exact C7_mixed_signedness.2.2.1 [("n", Value.vuint (2 ^ 63))] "n" [] (2 ^ 63) 1
      (by simp [alistLookup])

/-- C8: Record-level error atomicity.  A line whose payload fails to
parse as a JSON object leaves the processing state (the whole store,
the outputs, the fatal flag) exactly unchanged, and a run over any line
sequence containing such a line equals the run with that line deleted:
processing continues with the next line against an unchanged store. -/
theorem C8_parse_error_skip :
    (∀ (limit : ℤ) (st : AggState) (key : String),
      processLine limit st (.record key none) = st) ∧
    (∀ (limit : ℤ) (st : AggState) (pre post : List InputLine) (key : String),
      process_file limit st (pre ++ .record key none :: post) =
        process_file limit st (pre ++ post)) := by
  refine ⟨processLine_parseErr, ?_⟩
  intro limit st pre post key
  simp [process_file, List.foldl_append, processLine_parseErr]

/-- C9: Threshold flush is total.  When a record with a new key arrives
with the flush threshold in force and the store already holding at least
`limit` keys, the whole store is emitted and replaced by a store holding
only the new record; and a run with threshold 1 over two distinct-key
records yields exactly two output batches, one key each, nothing merged
across the boundary. -/
theorem C9_threshold_flush :
    (∀ (limit : ℤ) (st : AggState) (key : String) (obj : Obj),
      st.fatalErr = false → alistLookup st.data key = none →
      0 < limit → limit ≤ (st.data.length : ℤ) →
      processLine limit st (.record key (some obj)) =
        { st with outputs := st.outputs ++ [st.data], data := [(key, obj)] }) ∧
    runProgram 1 [.record "k1" (some [("a", .vfloat 1)]),
        .record "k2" (some [("b", .vfloat 2)])]
      = ⟨[("k2", [("b", Value.vfloat 2)])],
          [[("k1", [("a", Value.vfloat 1)])], [("k2", [("b", Value.vfloat 2)])]],
          false⟩ := by
  constructor
  · intro limit st key obj hf habs hpos hfull
    simp [processLine, hf, habs, hpos, hfull, alistSet]
  · simp [runProgram, process_file, processLine, alistLookup, alistSet]

/-- Witness for C9: the flush step at a concrete one-key store with
threshold 1 and a genuinely new key. -/
theorem C9_witness :
    processLine 1 ⟨[("k1", [("a", Value.vfloat 1)])], [], false⟩
        (.record "k2" (some [("b", Value.vfloat 2)])) =
      ⟨[("k2", [("b", Value.vfloat 2)])], [[("k1", [("a", Value.vfloat 1)])]], false⟩ :=
  C9_threshold_flush.1 1 ⟨[("k1", [("a", Value.vfloat 1)])], [], false⟩ "k2"
    [("b", Value.vfloat 2)] rfl (by simp [alistLookup]) (by norm_num) (by simp)

/-- C10: Float-only invariant.  If every numeric value in the store and
in the incoming record is a float (the shape produced when JSON numbers
all decode to `float64`), then `aggregate` coincides with the engine
whose integer-summation branches are removed (those branches never
execute) and every numeric value in the merged store is still a float;
lifted over the ingestion loop: a run over float-only parsed lines keeps
every accumulator float-only at every step. -/
theorem C10_float_only :
    (∀ s t : Obj, noIntFields s = true → noIntFields t = true →
      aggregate s t = aggregateFloatOnly s t ∧
        noIntFields (aggregate s t).1 = true) ∧
    (∀ (limit : ℤ) (lines : List InputLine) (st : AggState),
      storeNoInt st.data = true → (∀ l ∈ lines, lineNoInt l = true) →
      storeNoInt (process_file limit st lines).data = true) := by
  constructor
  · intro s t hs ht
    exact (aggregate_floatOnly_key (sizeOf t)).1 t s le_rfl hs ht
  · intro limit lines st hst hl
    exact process_file_noInt limit lines st hst hl

/-- Witness for C10: a concrete float-only merge agrees with the
integer-branch-free engine and stays float-only. -/
theorem C10_witness :
    aggregate [("a", Value.vfloat 1)] [("a", Value.vfloat 2), ("b", Value.vnull)] =
      aggregateFloatOnly [("a", Value.vfloat 1)] [("a", Value.vfloat 2), ("b", Value.vnull)] ∧
    noIntFields (aggregate [("a", Value.vfloat 1)]
        [("a", Value.vfloat 2), ("b", Value.vnull)]).1 = true :=
  C10_float_only.1 [("a", Value.vfloat 1)] [("a", Value.vfloat 2), ("b", Value.vnull)]
    (by simp [noIntFields, Value.noInt]) (by simp [noIntFields, Value.noInt])


end DStatsAggJson
